import Mathlib

/-!
# uclipboard: request handlers and name generation

A shallow embedding of `model/base_utils.go` (`RandString`) and of
`server/handler.go` (`HandlerPush`, `HandlerUpload`, `HandlerDownload`).

Go strings are Lean strings, `int64` values are integers with explicit
wrap-around on addition, Go `error` results are `Option`/`Except` values.
The collaborators of the handlers that live outside the two source files
(package `core`, the gin context, the standard library) are fields of an
environment `Env`; every handler returns its HTTP answer together with the
ordered log of collaborator calls it made and the set of blob paths that
exist in the upload directory afterwards.
-/

set_option autoImplicit false

/-! ## Standard-library pieces -/

/-- Addition of two `int64` values as Go performs it: the mathematical result
reduced into the interval from `-2^63` to `2^63 - 1`. -/
def wrapInt64 (x : Int) : Int := (x + 2 ^ 63) % 2 ^ 64 - 2 ^ 63

/-- Decimal digits of a natural number, most significant first; the first
argument bounds the number of digits produced. -/
def decimalDigits : Nat → Nat → List Char
  | 0, _ => []
  | fuel + 1, n =>
    if n < 10 then [Nat.digitChar n]
    else decimalDigits fuel (n / 10) ++ [Nat.digitChar (n % 10)]

/-- Result of `strconv.FormatInt(i, 10)`, which is also what the verb `%d`
of `fmt.Sprintf` prints: an optional minus sign followed by the decimal
digits of the magnitude. -/
def FormatInt (i : Int) : String :=
  if i < 0 then String.mk ('-' :: decimalDigits (i.natAbs + 1) i.natAbs)
  else String.mk (decimalDigits (i.natAbs + 1) i.natAbs)

/-- Value of a decimal digit character. -/
def digitVal (c : Char) : Nat := c.toNat - 48

/-- Number denoted by a list of decimal digit characters. -/
def digitsVal (cs : List Char) : Nat := cs.foldl (fun a c => a * 10 + digitVal c) 0

/-- The test `strings.Contains(s, "@")`: the one-character pattern occurs in
`s` exactly when the character does. -/
def containsAt (s : String) : Bool := s.data.contains '@'

/-- Go `error` values, kept as their message. -/
abbrev Error := String

namespace model

/-- The part of `math/rand` that `RandString` uses: sources created from a
seed, and `Intn`, which for a positive bound returns a number below the bound
together with the advanced generator state. -/
structure Rand where
  Source : Type
  NewSource : Int → Source
  Intn : Source → Nat → Nat × Source
  Intn_lt : ∀ (s : Source) (n : Nat), 0 < n → (Intn s n).1 < n

/-- The constant `charset` of `base_utils.go`. -/
def charset : String := "abcdefghijklmnopqrstuvwxyzABCDEFGHIJKLMNOPQRSTUVWXYZ0123456789"

/-- The loop `for i := range randomBytes` of `RandString`: one `Intn` draw
per position, each indexing `charset`. -/
def fillBytes (R : Rand) : Nat → R.Source → List Char
  | 0, _ => []
  | k + 1, g =>
    charset.data.get ⟨(R.Intn g charset.data.length).1,
        R.Intn_lt g charset.data.length (by decide)⟩
      :: fillBytes R k (R.Intn g charset.data.length).2

/-- The function `RandString` of `base_utils.go`. The generator is created
from the package variable `seed` inside the call. The size is a natural
number: `make([]byte, size)` panics on a negative size. -/
def RandString (R : Rand) (seed : Int) (size : Nat) : String :=
  String.mk (fillBytes R size (R.NewSource seed))

/-- Modelled from the spec: the type `FileMetadata` is declared in a file of
package `model` that is not part of the sources; its fields are those of the
file metadata table `(id, file_name, tmp_path, created_ts, expire_ts)`. -/
structure FileMetadata where
  Id : Int
  FileName : String
  TmpPath : String
  CreatedTs : Int
  ExpireTs : Int
deriving DecidableEq, Repr

/-- Modelled from the spec: the type `Clipboard` is declared in a file of
package `model` that is not part of the sources; its fields are those of the
clipboard table `(id, content, content_type, hostname, created_ts)`. -/
structure Clipboard where
  Id : Int
  Content : String
  ContentType : String
  Hostname : String
  CreatedTs : Int
deriving DecidableEq, Repr

end model

open model

/-! ## The handlers' surroundings -/

/-- Errors of the metadata lookups: `sql.ErrNoRows` or any other error. -/
inductive DbErr where
  | ErrNoRows
  | Other (msg : Error)
deriving DecidableEq, Repr

/-- The multipart file header handed out by `ctx.FormFile`. -/
structure FileHeader where
  Filename : String
deriving DecidableEq, Repr

/-- Payload of a successful upload answer:
`file_id`, `file_name`, `life_time`. -/
structure UploadResult where
  file_id : Int
  file_name : String
  life_time : Int
deriving DecidableEq, Repr

/-- What a handler writes to the gin context: a JSON answer built by
`model.NewDefaultServeRes` with its status code, or a served file with the
name put in the `Content-Disposition` header. -/
inductive Response where
  | JSON (code : Nat) (msg : String) (data : Option UploadResult)
  | File (fullPath : String) (attachmentName : String)
deriving DecidableEq, Repr

/-- The calls a handler makes to the blob directory and to the two stores. -/
inductive Call where
  | SaveUploadedFile (dst : String)
  | AddFileMetadataRecord (d : FileMetadata)
  | AddClipboardRecord (c : Clipboard)
  | GetFileMetadataLatestRecord
  | GetFileMetadataRecordByIdOrName (d : FileMetadata)
deriving DecidableEq, Repr

/-- Everything the handlers take from outside `handler.go`: configuration
values, the process-wide seed, the default-value constructors of package
`model`, and the results of the collaborators in package `core`, in gin and
in `path/filepath` and `path`. -/
structure Env where
  DefaultFileLifeMS : Int
  TmpPath : String
  filepathJoin : String → String → String
  pathJoin : String → String → String
  rand : Rand
  seed : Int
  NewFileMetadataWithDefault : FileMetadata
  NewClipoardWithDefault : Clipboard
  ConvertLifetime : String → Int → Except Error Int
  SaveUploadedFile : FileHeader → String → Option Error
  AddFileMetadataRecord : FileMetadata → Except Error Int
  AddClipboardRecord : Clipboard → Option Error
  ExtractFileId : String → String → Int
  GetFileMetadataLatestRecord : FileMetadata → Except DbErr FileMetadata
  GetFileMetadataRecordByIdOrName : FileMetadata → Except DbErr FileMetadata

/-- Result of running a handler: the answer, the collaborator calls in
order, and the blob paths present in the upload directory afterwards. -/
structure Outcome where
  res : Response
  calls : List Call
  blobs : List String
deriving DecidableEq, Repr

/-- A push request: the effect of `ctx.BindJSON` on the default record. -/
structure PushRequest where
  BindJSON : Clipboard → Except Error Clipboard

/-- An upload request: the result of `ctx.FormFile("file")`, the query
parameter `lifetime` and the header `hostname`. -/
structure UploadRequest where
  file : Option FileHeader
  lifetime : String
  hostname : String

namespace server

/-- The value `fileMetadata.TmpPath` computed by `HandlerUpload`:
`fmt.Sprintf("%s_%s", strconv.FormatInt(createdTs, 10), filename)`. -/
def tmpPath (createdTs : Int) (filename : String) : String :=
  FormatInt createdTs ++ "_" ++ filename

/-- The handler returned by `HandlerPush`. -/
def HandlerPush (env : Env) (req : PushRequest) (blobs : List String) : Outcome :=
  match req.BindJSON env.NewClipoardWithDefault with
  | .error _ => ⟨.JSON 400 "request is invalid." none, [], blobs⟩
  | .ok clipboardData =>
    if clipboardData.Content = "" then
      ⟨.JSON 400 "content is empty" none, [], blobs⟩
    else
      match env.AddClipboardRecord clipboardData with
      | some _ =>
        ⟨.JSON 500 "add clipboard record error" none,
          [.AddClipboardRecord clipboardData], blobs⟩
      | none => ⟨.JSON 200 "" none, [.AddClipboardRecord clipboardData], blobs⟩

/-- The file header after the step `if file.Filename == ""` of
`HandlerUpload`: an empty file name is replaced by `RandString(8)`. -/
def withFilename (env : Env) (file : FileHeader) : FileHeader :=
  if file.Filename = "" then { file with Filename := RandString env.rand env.seed 8 }
  else file

/-- The metadata `HandlerUpload` prepares before saving the file, from the
file header as it stands after the file-name step. -/
def uploadMetadata (env : Env) (file : FileHeader) (lifetimeMS : Int) : FileMetadata :=
  let fileMetadata := env.NewFileMetadataWithDefault
  { fileMetadata with
    FileName := file.Filename
    TmpPath := tmpPath fileMetadata.CreatedTs file.Filename
    ExpireTs := wrapInt64 (lifetimeMS + fileMetadata.CreatedTs) }

/-- The clipboard record `HandlerUpload` builds once the metadata store has
assigned `fileId`. -/
def uploadClipboard (env : Env) (hostname : String) (fileMetadata : FileMetadata)
    (fileId : Int) : Clipboard :=
  { env.NewClipoardWithDefault with
    Content := fileMetadata.FileName ++ "@" ++ FormatInt fileId
    Hostname := hostname
    ContentType := "binary" }

/-- The handler returned by `HandlerUpload`. The branch for a failing
`json.Marshal` of the answer is left out: marshalling a map of two integers
and a string does not fail. -/
def HandlerUpload (env : Env) (req : UploadRequest) (blobs : List String) : Outcome :=
  match req.file with
  | none => ⟨.JSON 400 "can't read file from request" none, [], blobs⟩
  | some file =>
    match env.ConvertLifetime req.lifetime env.DefaultFileLifeMS with
    | .error _ => ⟨.JSON 400 "invalid lifetime" none, [], blobs⟩
    | .ok lifetimeMS =>
      let hostname := if req.hostname = "" then "unknown" else req.hostname
      let file := withFilename env file
      let fileMetadata := uploadMetadata env file lifetimeMS
      let filePath := env.filepathJoin env.TmpPath fileMetadata.TmpPath
      match env.SaveUploadedFile file filePath with
      | some _ => ⟨.JSON 500 "save file error" none, [.SaveUploadedFile filePath], blobs⟩
      | none =>
        match env.AddFileMetadataRecord fileMetadata with
        | .error _ =>
          ⟨.JSON 500 "add file metadata record error" none,
            [.SaveUploadedFile filePath, .AddFileMetadataRecord fileMetadata],
            filePath :: blobs⟩
        | .ok fileId =>
          let newClipboardRecord := uploadClipboard env hostname fileMetadata fileId
          match env.AddClipboardRecord newClipboardRecord with
          | some _ =>
            ⟨.JSON 500 "add clipboard record error" none,
              [.SaveUploadedFile filePath, .AddFileMetadataRecord fileMetadata,
                .AddClipboardRecord newClipboardRecord],
              filePath :: blobs⟩
          | none =>
            ⟨.JSON 200 ""
                (some ⟨fileId, fileMetadata.FileName, Int.tdiv lifetimeMS 1000⟩),
              [.SaveUploadedFile filePath, .AddFileMetadataRecord fileMetadata,
                .AddClipboardRecord newClipboardRecord],
              filePath :: blobs⟩

/-- The part of `HandlerDownload` after `fileName := ctx.Param("filename")[1:]`. -/
def downloadNamed (env : Env) (fileName : String) (blobs : List String) : Outcome :=
  let metadata := env.NewFileMetadataWithDefault
  if fileName = "" then
    match env.GetFileMetadataLatestRecord metadata with
    | .error .ErrNoRows =>
      ⟨.JSON 404 "file not found" none, [.GetFileMetadataLatestRecord], blobs⟩
    | .error (.Other _) =>
      ⟨.JSON 500 "get the latest file metadata record error" none,
        [.GetFileMetadataLatestRecord], blobs⟩
    | .ok found =>
      ⟨.File (env.pathJoin env.TmpPath found.TmpPath) found.FileName,
        [.GetFileMetadataLatestRecord], blobs⟩
  else
    let probe : Except Response FileMetadata :=
      if containsAt fileName then
        let id := env.ExtractFileId fileName "@"
        if id = 0 then .error (.JSON 500 "invalid format of file id " none)
        else .ok { metadata with Id := id }
      else .ok { metadata with FileName := fileName }
    match probe with
    | .error r => ⟨r, [], blobs⟩
    | .ok metadata =>
      match env.GetFileMetadataRecordByIdOrName metadata with
      | .error .ErrNoRows =>
        ⟨.JSON 404 "file not found" none,
          [.GetFileMetadataRecordByIdOrName metadata], blobs⟩
      | .error (.Other msg) =>
        ⟨.JSON 500 ("get file metadata record error: " ++ msg) none,
          [.GetFileMetadataRecordByIdOrName metadata], blobs⟩
      | .ok found =>
        ⟨.File (env.pathJoin env.TmpPath found.TmpPath) found.FileName,
          [.GetFileMetadataRecordByIdOrName metadata], blobs⟩

/-- The handler returned by `HandlerDownload`, applied to the raw path
parameter. Slicing an empty parameter with `[1:]` panics, which is the
result `none`; gin hands a catch-all parameter over with its leading slash. -/
def HandlerDownload (env : Env) (param : String) (blobs : List String) : Option Outcome :=
  match param.data with
  | [] => none
  | _ :: rest => some (downloadNamed env (String.mk rest) blobs)

end server

namespace core

/-- Modelled from the spec: `ConvertLifetime` belongs to package `core`, which
is not part of the sources. An empty text gives the default; otherwise the
text is read as a non-negative whole number of seconds and converted to
milliseconds; a negative or unreadable text is an error. -/
def ConvertLifetime (raw : String) (defaultMs : Int) : Except Error Int :=
  if raw = "" then .ok defaultMs
  else if raw.data.all Char.isDigit then .ok ((digitsVal raw.data : Nat) * 1000)
  else .error "invalid lifetime"

/-- Modelled from the spec: `ExtractFileId` belongs to package `core`, which
is not part of the sources. The text after the last separator is read as a
positive whole number; anything else gives `0`. -/
def ExtractFileId (fileName : String) (sep : String) : Int :=
  match sep.data with
  | [c] =>
    let suffix := (fileName.data.reverse.takeWhile (fun x => x != c)).reverse
    if suffix != [] && suffix.all Char.isDigit then (digitsVal suffix : Nat) else 0
  | _ => 0

end core

/-! ## Concrete surroundings used to run the handlers -/

/-- A small linear congruential generator standing in for `math/rand`. -/
def lcgRand : Rand where
  Source := Nat
  NewSource := fun s => s.natAbs
  Intn := fun g n => ((g / 65536) % n, (g * 1103515245 + 12345) % 2147483648)
  Intn_lt := fun g _ h => Nat.mod_lt (g / 65536) h

/-- Surroundings in which every collaborator succeeds: the clock reads
`1700000000000`, the metadata store assigns id `7`. -/
def okEnv : Env where
  DefaultFileLifeMS := 300000
  TmpPath := "tmp"
  filepathJoin := fun a b => a ++ "/" ++ b
  pathJoin := fun a b => a ++ "/" ++ b
  rand := lcgRand
  seed := 42
  NewFileMetadataWithDefault := ⟨0, "", "", 1700000000000, 0⟩
  NewClipoardWithDefault := ⟨0, "", "text", "unknown", 1700000000000⟩
  ConvertLifetime := core.ConvertLifetime
  SaveUploadedFile := fun _ _ => none
  AddFileMetadataRecord := fun _ => .ok 7
  AddClipboardRecord := fun _ => none
  ExtractFileId := core.ExtractFileId
  GetFileMetadataLatestRecord := fun _ => .error .ErrNoRows
  GetFileMetadataRecordByIdOrName := fun _ => .error .ErrNoRows

/-- Surroundings in which the metadata insert fails. -/
def metadataFailEnv : Env :=
  { okEnv with AddFileMetadataRecord := fun _ => .error "database is locked" }

/-- Surroundings in which the metadata lookups fail with a storage fault. -/
def lookupFaultEnv : Env :=
  { okEnv with
    GetFileMetadataLatestRecord := fun _ => .error (.Other "database is locked")
    GetFileMetadataRecordByIdOrName := fun _ => .error (.Other "database is locked") }

/-- Surroundings like `okEnv` whose clock reads one millisecond later. -/
def laterEnv : Env :=
  { okEnv with NewFileMetadataWithDefault := ⟨0, "", "", 1700000000001, 0⟩ }

/-- The values of type `int64`. -/
def isInt64 (x : Int) : Prop := -2 ^ 63 ≤ x ∧ x < 2 ^ 63

/-- An upload of `report.pdf` with the given lifetime text. -/
def reportUpload (lifetime : String) : UploadRequest :=
  ⟨some ⟨"report.pdf"⟩, lifetime, "laptop"⟩

/-! ## Decimal rendering -/

theorem digitChar_isDigit (d : Nat) (h : d < 10) : (Nat.digitChar d).isDigit = true := by
  interval_cases d <;> decide

theorem digitVal_digitChar (d : Nat) (h : d < 10) : digitVal (Nat.digitChar d) = d := by
  interval_cases d <;> decide

theorem digitsVal_append_singleton (cs : List Char) (c : Char) :
    digitsVal (cs ++ [c]) = digitsVal cs * 10 + digitVal c := by
  simp [digitsVal, List.foldl_append]

theorem decimalDigits_isDigit (fuel n : Nat) :
    ∀ c ∈ decimalDigits fuel n, c.isDigit = true := by
  induction fuel generalizing n with
  | zero => intro c hc; simp [decimalDigits] at hc
  | succ fuel ih =>
    intro c hc
    unfold decimalDigits at hc
    split at hc
    · have hc1 : c = Nat.digitChar n := by simpa using hc
      rw [hc1]; exact digitChar_isDigit n (by assumption)
    · rcases List.mem_append.mp hc with h1 | h2
      · exact ih (n / 10) c h1
      · have hc1 : c = Nat.digitChar (n % 10) := by simpa using h2
        rw [hc1]; exact digitChar_isDigit (n % 10) (Nat.mod_lt n (by decide))

theorem digitsVal_decimalDigits (fuel n : Nat) (h : n < fuel) :
    digitsVal (decimalDigits fuel n) = n := by
  induction fuel generalizing n with
  | zero => omega
  | succ fuel ih =>
    unfold decimalDigits
    split
    · rename_i hlt
      simp [digitsVal, digitVal_digitChar n hlt]
    · rename_i hge
      rw [digitsVal_append_singleton, ih (n / 10) (by omega),
        digitVal_digitChar (n % 10) (Nat.mod_lt n (by decide))]
      omega

theorem decimalDigits_ne_nil (fuel n : Nat) : decimalDigits (fuel + 1) n ≠ [] := by
  unfold decimalDigits
  split <;> simp

theorem FormatInt_data_mem (i : Int) :
    ∀ c ∈ (FormatInt i).data, c = '-' ∨ c.isDigit = true := by
  intro c hc
  unfold FormatInt at hc
  split at hc
  · rcases List.mem_cons.mp hc with h1 | h2
    · exact Or.inl h1
    · exact Or.inr (decimalDigits_isDigit _ _ c h2)
  · exact Or.inr (decimalDigits_isDigit _ _ c hc)

theorem FormatInt_injective (a b : Int) (h : FormatInt a = FormatInt b) : a = b := by
  have hval : ∀ n : Nat, digitsVal (decimalDigits (n + 1) n) = n :=
    fun n => digitsVal_decimalDigits (n + 1) n (Nat.lt_succ_self n)
  have hdash : ∀ n : Nat, ∀ l : List Char, '-' :: l ≠ decimalDigits (n + 1) n := by
    intro n l heq
    have hmem : '-' ∈ decimalDigits (n + 1) n := by rw [← heq]; exact List.mem_cons_self _ _
    have := decimalDigits_isDigit _ _ _ hmem
    exact absurd this (by decide)
  unfold FormatInt at h
  by_cases ha : a < 0 <;> by_cases hb : b < 0
  · simp only [ha, hb, if_true, String.ext_iff, List.cons.injEq, true_and] at h
    have := congrArg digitsVal h
    rw [hval, hval] at this
    omega
  · simp only [ha, hb, if_true, if_false, String.ext_iff] at h
    exact absurd h (hdash _ _)
  · simp only [ha, hb, if_true, if_false, String.ext_iff] at h
    exact absurd h.symm (hdash _ _)
  · simp only [ha, hb, if_false, String.ext_iff] at h
    have := congrArg digitsVal h
    rw [hval, hval] at this
    omega

theorem FormatInt_ne_empty (i : Int) : FormatInt i ≠ "" := by
  unfold FormatInt
  split
  · intro h; simp [String.ext_iff] at h
  · intro h
    have := decimalDigits_ne_nil i.natAbs i.natAbs
    simp [String.ext_iff] at h
    exact this h

/-- Splitting at the first occurrence of a separator that the two heads do
not contain is unambiguous. -/
theorem append_sep_cancel (sep : Char) :
    ∀ (d₁ d₂ r₁ r₂ : List Char), sep ∉ d₁ → sep ∉ d₂ →
      d₁ ++ sep :: r₁ = d₂ ++ sep :: r₂ → d₁ = d₂ ∧ r₁ = r₂ := by
  intro d₁
  induction d₁ with
  | nil =>
    intro d₂ r₁ r₂ _ h₂ heq
    cases d₂ with
    | nil => simpa using heq
    | cons y ys =>
      simp only [List.nil_append, List.cons_append, List.cons.injEq] at heq
      exact absurd (heq.1 ▸ List.mem_cons_self _ _) h₂
  | cons x xs ih =>
    intro d₂ r₁ r₂ h₁ h₂ heq
    cases d₂ with
    | nil =>
      simp only [List.nil_append, List.cons_append, List.cons.injEq] at heq
      exact absurd (heq.1 ▸ List.mem_cons_self _ _) h₁
    | cons y ys =>
      simp only [List.cons_append, List.cons.injEq] at heq
      have hx : sep ∉ xs := fun hm => h₁ (List.mem_cons_of_mem _ hm)
      have hy : sep ∉ ys := fun hm => h₂ (List.mem_cons_of_mem _ hm)
      obtain ⟨e₁, e₂⟩ := ih ys r₁ r₂ hx hy heq.2
      exact ⟨by rw [heq.1, e₁], e₂⟩

/-! ## The storage path as a function -/

/-- The path `decimal(created_ts) ++ "_" ++ file_name` determines the pair it
was built from, whatever characters the file name contains. -/
theorem tmpPath_eq_iff (t₁ t₂ : Int) (n₁ n₂ : String) :
    server.tmpPath t₁ n₁ = server.tmpPath t₂ n₂ ↔ t₁ = t₂ ∧ n₁ = n₂ := by
  constructor
  · intro h
    have hsep : ∀ i : Int, '_' ∉ (FormatInt i).data := by
      intro i hm
      rcases FormatInt_data_mem i _ hm with h1 | h2
      · exact absurd h1 (by decide)
      · exact absurd h2 (by decide)
    unfold server.tmpPath at h
    rw [String.ext_iff] at h
    simp only [String.data_append] at h
    rw [List.append_assoc, List.append_assoc] at h
    obtain ⟨e₁, e₂⟩ := append_sep_cancel '_' _ _ _ _ (hsep t₁) (hsep t₂) h
    exact ⟨FormatInt_injective _ _ (String.ext_iff.mpr e₁), String.ext_iff.mpr e₂⟩
  · rintro ⟨rfl, rfl⟩
    rfl

/-! ## Generated names -/

theorem fillBytes_length (R : Rand) :
    ∀ (k : Nat) (g : R.Source), (fillBytes R k g).length = k := by
  intro k
  induction k with
  | zero => intro g; rfl
  | succ k ih => intro g; simp [fillBytes, ih]

theorem fillBytes_mem_charset (R : Rand) :
    ∀ (k : Nat) (g : R.Source), ∀ c ∈ fillBytes R k g, c ∈ charset.data := by
  intro k
  induction k with
  | zero => intro g c hc; simp [fillBytes] at hc
  | succ k ih =>
    intro g c hc
    unfold fillBytes at hc
    rcases List.mem_cons.mp hc with h1 | h2
    · rw [h1]; exact List.get_mem _ _ _
    · exact ih _ c h2

theorem fillBytes_take (R : Rand) :
    ∀ (n m : Nat) (g : R.Source), n ≤ m → (fillBytes R m g).take n = fillBytes R n g := by
  intro n
  induction n with
  | zero => intro m g _; simp [fillBytes]
  | succ n ih =>
    intro m g h
    cases m with
    | zero => omega
    | succ m =>
      simp only [fillBytes, List.take_succ_cons, List.cons.injEq, true_and]
      exact ih m _ (by omega)

theorem charset_alphanum : ∀ c ∈ charset.data, c.isAlphanum = true := by decide

/-- C5: for every size, `RandString` returns exactly `size` characters, each
of them a member of the 62-character charset, whose members are all letters
or digits; the name generated for an upload without a file name is
`RandString(8)`, which has 8 characters and is not empty. -/
theorem RandString_length_charset (R : Rand) (seed : Int) (size : Nat) (env : Env) :
    (RandString R seed size).length = size ∧
    (∀ c ∈ (RandString R seed size).data, c ∈ charset.data ∧ c.isAlphanum = true) ∧
    charset.length = 62 ∧
    (server.withFilename env ⟨""⟩).Filename = RandString env.rand env.seed 8 ∧
    (server.withFilename env ⟨""⟩).Filename.length = 8 ∧
    (server.withFilename env ⟨""⟩).Filename ≠ "" := by
  have hlen : ∀ (R : Rand) (seed : Int) (k : Nat), (RandString R seed k).length = k :=
    fun R seed k => fillBytes_length R k _
  have hname : (server.withFilename env ⟨""⟩).Filename = RandString env.rand env.seed 8 := by
    simp [server.withFilename]
  refine ⟨hlen R seed size, ?_, by decide, hname, ?_, ?_⟩
  · intro c hc
    have hmem : c ∈ charset.data := fillBytes_mem_charset R size _ c hc
    exact ⟨hmem, charset_alphanum c hmem⟩
  · rw [hname]; exact hlen _ _ 8
  · rw [hname]
    intro h
    have := hlen env.rand env.seed 8
    rw [h] at this
    exact absurd this (by decide)

theorem RandString_length_charset_witness :
    (RandString lcgRand 42 8).length = 8 ∧
    ('V' ∈ charset.data ∧ 'V'.isAlphanum = true) ∧
    (server.withFilename okEnv ⟨""⟩).Filename ≠ "" :=
  ⟨(RandString_length_charset lcgRand 42 8 okEnv).1,
    (RandString_length_charset lcgRand 42 8 okEnv).2.1 'V' (by decide),
    (RandString_length_charset lcgRand 42 8 okEnv).2.2.2.2.2⟩

/-- C10: the generator is rebuilt from the seed inside every call, so the
result depends on the seed and the size only, and a shorter result is the
beginning of a longer one: for `n ≤ m`, `RandString(n)` consists of the first
`n` characters of `RandString(m)`. The file name put into the metadata of an
upload without a client file name is `RandString(8)` for the process seed,
whatever the request. -/
theorem RandString_prefix (R : Rand) (seed : Int) (n m : Nat) (h : n ≤ m)
    (env : Env) (lifetimeMS : Int) :
    RandString R seed n = String.mk ((RandString R seed m).data.take n) ∧
    (server.uploadMetadata env (server.withFilename env ⟨""⟩) lifetimeMS).FileName
      = RandString env.rand env.seed 8 := by
  constructor
  · simp [RandString, fillBytes_take R n m _ h]
  · simp [server.uploadMetadata, server.withFilename]

theorem RandString_prefix_witness :
    3 ≤ 8 ∧ RandString lcgRand 42 3 = String.mk ((RandString lcgRand 42 8).data.take 3) ∧
    (server.uploadMetadata okEnv (server.withFilename okEnv ⟨""⟩) 60000).FileName
      = RandString okEnv.rand okEnv.seed 8 :=
  ⟨by decide, RandString_prefix lcgRand 42 3 8 (by decide) okEnv 60000⟩

/-! ## Uploads -/

theorem wrapInt64_of_isInt64 (x : Int) (h : isInt64 x) : wrapInt64 x = x := by
  unfold isInt64 at h
  unfold wrapInt64
  rw [Int.emod_eq_of_lt (by omega) (by omega)]
  omega

/-- C2: when `ConvertLifetime` rejects the lifetime parameter of an upload,
the handler makes no call to the blob directory or to either store and
leaves the blobs as they were; whenever the file part was readable, so that
the lifetime is looked at, the answer is the client error 400 with the
message "invalid lifetime". -/
theorem HandlerUpload_invalid_lifetime (env : Env) (req : UploadRequest)
    (blobs : List String) (e : Error)
    (h : env.ConvertLifetime req.lifetime env.DefaultFileLifeMS = .error e) :
    (server.HandlerUpload env req blobs).calls = [] ∧
    (server.HandlerUpload env req blobs).blobs = blobs ∧
    (∀ file, req.file = some file →
      (server.HandlerUpload env req blobs).res = .JSON 400 "invalid lifetime" none) := by
  unfold server.HandlerUpload
  cases hf : req.file with
  | none => simp
  | some file => simp [h]

theorem HandlerUpload_invalid_lifetime_witness :
    okEnv.ConvertLifetime (reportUpload "-1").lifetime okEnv.DefaultFileLifeMS
      = .error "invalid lifetime" ∧
    (server.HandlerUpload okEnv (reportUpload "-1") ["old"]).calls = [] ∧
    (server.HandlerUpload okEnv (reportUpload "-1") ["old"]).blobs = ["old"] ∧
    (server.HandlerUpload okEnv (reportUpload "-1") ["old"]).res
      = .JSON 400 "invalid lifetime" none :=
  have h := HandlerUpload_invalid_lifetime okEnv (reportUpload "-1") ["old"]
    "invalid lifetime" rfl
  ⟨rfl, h.1, h.2.1, h.2.2 ⟨"report.pdf"⟩ rfl⟩

/-- C3, as stated, fails: the upload of `report.pdf` with a lifetime of
9223372036854775 seconds succeeds (answer 200), and the row handed to the
metadata store has an `expire_ts` that is not `created_ts + L`, because the
`int64` sum wraps around. -/
theorem HandlerUpload_expire_sum_wraps :
    okEnv.ConvertLifetime (reportUpload "9223372036854775").lifetime okEnv.DefaultFileLifeMS
      = .ok 9223372036854775000 ∧
    (server.HandlerUpload okEnv (reportUpload "9223372036854775") []).res
      = .JSON 200 "" (some ⟨7, "report.pdf", 9223372036854775⟩) ∧
    ∃ md : FileMetadata,
      Call.AddFileMetadataRecord md ∈
        (server.HandlerUpload okEnv (reportUpload "9223372036854775") []).calls ∧
      md.FileName = "report.pdf" ∧
      md.CreatedTs = 1700000000000 ∧
      md.ExpireTs = -9223370336854776616 ∧
      ¬ md.ExpireTs = md.CreatedTs + 9223372036854775000 :=
  ⟨rfl, by decide,
    ⟨0, "report.pdf", "1700000000000_report.pdf", 1700000000000, -9223370336854776616⟩,
    by decide, rfl, rfl, rfl, by decide⟩

/-- C3, amended: in a successful upload (answer 200) with non-empty client
file name `n` and resolved lifetime `L` such that `created_ts + L` is an
`int64` value, the handler saves the blob, hands the metadata store a row
with `file_name = n` and `expire_ts = created_ts + L`, receives an id `k`
from it, and hands the clipboard store a record with
`content = n ++ "@" ++ decimal(k)` and `content_type = "binary"`. -/
theorem HandlerUpload_success_records (env : Env) (req : UploadRequest)
    (blobs : List String) (n : String) (L : Int) (data : Option UploadResult)
    (hfile : req.file = some ⟨n⟩) (hn : n ≠ "")
    (hL : env.ConvertLifetime req.lifetime env.DefaultFileLifeMS = .ok L)
    (hfit : isInt64 (env.NewFileMetadataWithDefault.CreatedTs + L))
    (hok : (server.HandlerUpload env req blobs).res = .JSON 200 "" data) :
    ∃ (md : FileMetadata) (k : Int) (rec : Clipboard),
      (server.HandlerUpload env req blobs).calls =
        [.SaveUploadedFile (env.filepathJoin env.TmpPath md.TmpPath),
          .AddFileMetadataRecord md, .AddClipboardRecord rec] ∧
      env.AddFileMetadataRecord md = .ok k ∧
      md.FileName = n ∧
      md.CreatedTs = env.NewFileMetadataWithDefault.CreatedTs ∧
      md.ExpireTs = md.CreatedTs + L ∧
      rec.Content = n ++ "@" ++ FormatInt k ∧
      rec.ContentType = "binary" := by
  have hname : server.withFilename env ⟨n⟩ = ⟨n⟩ := by simp [server.withFilename, hn]
  have hexp : (server.uploadMetadata env ⟨n⟩ L).ExpireTs
      = (server.uploadMetadata env ⟨n⟩ L).CreatedTs + L := by
    have hw : (server.uploadMetadata env ⟨n⟩ L).ExpireTs
        = wrapInt64 (env.NewFileMetadataWithDefault.CreatedTs + L) := by
      simp [server.uploadMetadata, Int.add_comm]
    rw [hw, wrapInt64_of_isInt64 _ hfit]
    simp [server.uploadMetadata]
  unfold server.HandlerUpload at hok ⊢
  simp only [hfile, hL, hname] at hok ⊢
  cases hsave : env.SaveUploadedFile ⟨n⟩
      (env.filepathJoin env.TmpPath (server.uploadMetadata env ⟨n⟩ L).TmpPath) with
  | some err => simp [hsave] at hok
  | none =>
    cases hmeta : env.AddFileMetadataRecord (server.uploadMetadata env ⟨n⟩ L) with
    | error err => simp [hsave, hmeta] at hok
    | ok k =>
      cases hclip : env.AddClipboardRecord
          (server.uploadClipboard env (if req.hostname = "" then "unknown" else req.hostname)
            (server.uploadMetadata env ⟨n⟩ L) k) with
      | some err => simp [hsave, hmeta, hclip] at hok
      | none =>
        refine ⟨server.uploadMetadata env ⟨n⟩ L, k, server.uploadClipboard env
          (if req.hostname = "" then "unknown" else req.hostname)
          (server.uploadMetadata env ⟨n⟩ L) k, ?_, hmeta, ?_, rfl, hexp, ?_, rfl⟩
        · simp [hsave, hmeta, hclip]
        · simp [server.uploadMetadata]
        · simp [server.uploadClipboard, server.uploadMetadata]

theorem HandlerUpload_success_records_witness :
    (reportUpload "60").file = some ⟨"report.pdf"⟩ ∧ "report.pdf" ≠ "" ∧
    okEnv.ConvertLifetime (reportUpload "60").lifetime okEnv.DefaultFileLifeMS = .ok 60000 ∧
    isInt64 (okEnv.NewFileMetadataWithDefault.CreatedTs + 60000) ∧
    (server.HandlerUpload okEnv (reportUpload "60") []).res
      = .JSON 200 "" (some ⟨7, "report.pdf", 60⟩) ∧
    (server.HandlerUpload okEnv (reportUpload "60") []).calls =
      [.SaveUploadedFile "tmp/1700000000000_report.pdf",
        .AddFileMetadataRecord
          ⟨0, "report.pdf", "1700000000000_report.pdf", 1700000000000, 1700000060000⟩,
        .AddClipboardRecord ⟨0, "report.pdf@7", "binary", "laptop", 1700000000000⟩] ∧
    ∃ (md : FileMetadata) (k : Int) (rec : Clipboard),
      (server.HandlerUpload okEnv (reportUpload "60") []).calls =
        [.SaveUploadedFile (okEnv.filepathJoin okEnv.TmpPath md.TmpPath),
          .AddFileMetadataRecord md, .AddClipboardRecord rec] ∧
      okEnv.AddFileMetadataRecord md = .ok k ∧
      md.FileName = "report.pdf" ∧
      md.CreatedTs = okEnv.NewFileMetadataWithDefault.CreatedTs ∧
      md.ExpireTs = md.CreatedTs + 60000 ∧
      rec.Content = "report.pdf" ++ "@" ++ FormatInt k ∧
      rec.ContentType = "binary" :=
  ⟨rfl, by decide, rfl, by unfold isInt64; decide, by decide, by decide,
    HandlerUpload_success_records okEnv (reportUpload "60") [] "report.pdf" 60000
      (some ⟨7, "report.pdf", 60⟩) rfl (by decide) rfl (by unfold isInt64; decide)
      (by decide)⟩

/-- C1: whenever the blob is saved and the metadata insert then fails, the
answer is 500 "add file metadata record error", the calls are the save and
the insert only, and the saved blob is still present in the upload directory
when the handler returns. -/
theorem HandlerUpload_metadata_failure_keeps_blob (env : Env) (req : UploadRequest)
    (blobs : List String) (file : FileHeader) (L : Int) (e : Error)
    (hfile : req.file = some file)
    (hL : env.ConvertLifetime req.lifetime env.DefaultFileLifeMS = .ok L)
    (hsave : env.SaveUploadedFile (server.withFilename env file)
      (env.filepathJoin env.TmpPath
        (server.uploadMetadata env (server.withFilename env file) L).TmpPath) = none)
    (hmeta : env.AddFileMetadataRecord
      (server.uploadMetadata env (server.withFilename env file) L) = .error e) :
    server.HandlerUpload env req blobs =
      ⟨.JSON 500 "add file metadata record error" none,
        [.SaveUploadedFile (env.filepathJoin env.TmpPath
            (server.uploadMetadata env (server.withFilename env file) L).TmpPath),
          .AddFileMetadataRecord (server.uploadMetadata env (server.withFilename env file) L)],
        env.filepathJoin env.TmpPath
          (server.uploadMetadata env (server.withFilename env file) L).TmpPath :: blobs⟩ := by
  simp [server.HandlerUpload, hfile, hL, hsave, hmeta]

theorem HandlerUpload_metadata_failure_keeps_blob_witness :
    server.HandlerUpload metadataFailEnv (reportUpload "60") [] =
      ⟨.JSON 500 "add file metadata record error" none,
        [.SaveUploadedFile "tmp/1700000000000_report.pdf",
          .AddFileMetadataRecord
            ⟨0, "report.pdf", "1700000000000_report.pdf", 1700000000000, 1700000060000⟩],
        ["tmp/1700000000000_report.pdf"]⟩ ∧
    "tmp/1700000000000_report.pdf" ∈
      (server.HandlerUpload metadataFailEnv (reportUpload "60") []).blobs :=
  have h := HandlerUpload_metadata_failure_keeps_blob metadataFailEnv (reportUpload "60") []
    ⟨"report.pdf"⟩ 60000 "database is locked" rfl rfl rfl rfl
  ⟨by decide, by rw [h]; exact List.mem_cons_self _ _⟩

/-- C4, as stated, fails: with the lifetime text "0" the row handed to the
metadata store has `expire_ts = created_ts`, and with a lifetime of
9223372036854775 seconds the `int64` sum wraps around to a value below
`created_ts`. -/
theorem HandlerUpload_expire_not_after_created :
    (core.ConvertLifetime "0" 300000 = .ok 0 ∧
      ∃ md : FileMetadata,
        Call.AddFileMetadataRecord md ∈ (server.HandlerUpload okEnv (reportUpload "0") []).calls ∧
        ¬ md.ExpireTs > md.CreatedTs) ∧
    (core.ConvertLifetime "9223372036854775" 300000 = .ok 9223372036854775000 ∧
      ∃ md : FileMetadata,
        Call.AddFileMetadataRecord md ∈
          (server.HandlerUpload okEnv (reportUpload "9223372036854775") []).calls ∧
        ¬ md.ExpireTs > md.CreatedTs) :=
  ⟨⟨rfl, ⟨0, "report.pdf", "1700000000000_report.pdf", 1700000000000, 1700000000000⟩,
      by decide, by decide⟩,
    ⟨rfl, ⟨0, "report.pdf", "1700000000000_report.pdf", 1700000000000,
        -9223370336854776616⟩, by decide, by decide⟩⟩

/-- C4, amended: when the accepted lifetime `L` is not negative and
`created_ts + L` is still an `int64` value, every row the handler hands to the
metadata store has `expire_ts = created_ts + L`, hence
`expire_ts ≥ created_ts`, with `expire_ts > created_ts` exactly when
`L > 0`. -/
theorem HandlerUpload_expire_ge_created (env : Env) (req : UploadRequest)
    (blobs : List String) (L : Int) (md : FileMetadata)
    (hL : env.ConvertLifetime req.lifetime env.DefaultFileLifeMS = .ok L)
    (hnonneg : 0 ≤ L)
    (hfit : isInt64 (env.NewFileMetadataWithDefault.CreatedTs + L))
    (hcall : Call.AddFileMetadataRecord md ∈ (server.HandlerUpload env req blobs).calls) :
    md.ExpireTs = md.CreatedTs + L ∧ md.CreatedTs ≤ md.ExpireTs ∧
    (md.CreatedTs < md.ExpireTs ↔ 0 < L) := by
  have key : ∀ file, md = server.uploadMetadata env file L →
      md.ExpireTs = md.CreatedTs + L := by
    intro file hmd
    subst hmd
    have : (server.uploadMetadata env file L).ExpireTs
        = wrapInt64 (env.NewFileMetadataWithDefault.CreatedTs + L) := by
      simp [server.uploadMetadata, Int.add_comm]
    rw [this, wrapInt64_of_isInt64 _ hfit]
    simp [server.uploadMetadata]
  have hexp : md.ExpireTs = md.CreatedTs + L := by
    unfold server.HandlerUpload at hcall
    cases hf : req.file with
    | none => simp [hf] at hcall
    | some file =>
      simp only [hf, hL] at hcall
      split at hcall
      · simp at hcall
      · split at hcall
        · simp at hcall
          exact key _ hcall
        · split at hcall
          · simp at hcall
            exact key _ hcall
          · simp at hcall
            exact key _ hcall
  refine ⟨hexp, ?_, ?_⟩ <;> omega

theorem HandlerUpload_expire_ge_created_witness :
    okEnv.ConvertLifetime (reportUpload "60").lifetime okEnv.DefaultFileLifeMS = .ok 60000 ∧
    (0 : Int) ≤ 60000 ∧
    isInt64 (okEnv.NewFileMetadataWithDefault.CreatedTs + 60000) ∧
    Call.AddFileMetadataRecord
        ⟨0, "report.pdf", "1700000000000_report.pdf", 1700000000000, 1700000060000⟩
      ∈ (server.HandlerUpload okEnv (reportUpload "60") []).calls ∧
    ((1700000060000 : Int) = 1700000000000 + 60000 ∧
      (1700000000000 : Int) ≤ 1700000060000 ∧
      ((1700000000000 : Int) < 1700000060000 ↔ (0 : Int) < 60000)) :=
  ⟨rfl, by decide, by unfold isInt64; decide, by decide,
    HandlerUpload_expire_ge_created okEnv (reportUpload "60") [] 60000
      ⟨0, "report.pdf", "1700000000000_report.pdf", 1700000000000, 1700000060000⟩
      rfl (by decide) (by unfold isInt64; decide) (by decide)⟩

/-! ## The call log of an upload -/

theorem FormatInt_reference_ne_empty (name : String) (id : Int) :
    name ++ "@" ++ FormatInt id ≠ "" := by
  intro h
  have := congrArg String.length h
  simp [String.length_append] at this
  exact absurd this.1.2 (by decide)

/-- The calls of an upload: none, the save alone, the save and the metadata
insert, or these two followed by the clipboard insert. -/
theorem HandlerUpload_calls (env : Env) (req : UploadRequest) (blobs : List String) :
    (server.HandlerUpload env req blobs).calls = [] ∨
    ∃ (file : FileHeader) (L : Int) (hostname : String),
      (server.HandlerUpload env req blobs).calls =
        [.SaveUploadedFile (env.filepathJoin env.TmpPath (server.uploadMetadata env file L).TmpPath)] ∨
      (server.HandlerUpload env req blobs).calls =
        [.SaveUploadedFile (env.filepathJoin env.TmpPath (server.uploadMetadata env file L).TmpPath),
          .AddFileMetadataRecord (server.uploadMetadata env file L)] ∨
      ∃ k : Int, (server.HandlerUpload env req blobs).calls =
        [.SaveUploadedFile (env.filepathJoin env.TmpPath (server.uploadMetadata env file L).TmpPath),
          .AddFileMetadataRecord (server.uploadMetadata env file L),
          .AddClipboardRecord
            (server.uploadClipboard env hostname (server.uploadMetadata env file L) k)] := by
  cases hf : req.file with
  | none => left; simp [server.HandlerUpload, hf]
  | some file =>
    cases hL : env.ConvertLifetime req.lifetime env.DefaultFileLifeMS with
    | error e => left; simp [server.HandlerUpload, hf, hL]
    | ok L =>
      right
      refine ⟨server.withFilename env file, L,
        if req.hostname = "" then "unknown" else req.hostname, ?_⟩
      cases hs : env.SaveUploadedFile (server.withFilename env file)
          (env.filepathJoin env.TmpPath
            (server.uploadMetadata env (server.withFilename env file) L).TmpPath) with
      | some e => left; simp [server.HandlerUpload, hf, hL, hs]
      | none =>
        right
        cases hm : env.AddFileMetadataRecord
            (server.uploadMetadata env (server.withFilename env file) L) with
        | error e => left; simp [server.HandlerUpload, hf, hL, hs, hm]
        | ok k =>
          right
          refine ⟨k, ?_⟩
          cases hc : env.AddClipboardRecord
              (server.uploadClipboard env (if req.hostname = "" then "unknown" else req.hostname)
                (server.uploadMetadata env (server.withFilename env file) L) k) with
          | some e => simp [server.HandlerUpload, hf, hL, hs, hm, hc]
          | none => simp [server.HandlerUpload, hf, hL, hs, hm, hc]

/-! ## Stored paths -/

/-- Every row an upload hands to the metadata store is the prepared metadata
of some file header and lifetime. -/
theorem HandlerUpload_metadata_row (env : Env) (req : UploadRequest) (blobs : List String)
    (md : FileMetadata)
    (h : Call.AddFileMetadataRecord md ∈ (server.HandlerUpload env req blobs).calls) :
    ∃ (file : FileHeader) (L : Int), md = server.uploadMetadata env file L := by
  rcases HandlerUpload_calls env req blobs with h0 | ⟨file, L, hostname, h1 | h2 | ⟨k, h3⟩⟩
  · rw [h0] at h; simp at h
  · rw [h1] at h; simp at h
  · rw [h2] at h
    simp at h
    exact ⟨file, L, h⟩
  · rw [h3] at h
    simp at h
    exact ⟨file, L, h⟩

/-- C8: every row that `HandlerUpload` hands to the metadata store has
`tmp_path = decimal(created_ts) ++ "_" ++ file_name` for its own `created_ts`
and `file_name`, and this path is collision-free: two such rows, from any two
uploads, with equal `tmp_path` have equal `created_ts` and equal `file_name`;
as a function of the pair, two paths are equal exactly when both the
timestamps and the file names are equal, whatever characters the file names
contain. -/
theorem HandlerUpload_tmpPath_injective (env₁ env₂ : Env) (req₁ req₂ : UploadRequest)
    (blobs₁ blobs₂ : List String) (md₁ md₂ : FileMetadata)
    (h₁ : Call.AddFileMetadataRecord md₁ ∈ (server.HandlerUpload env₁ req₁ blobs₁).calls)
    (h₂ : Call.AddFileMetadataRecord md₂ ∈ (server.HandlerUpload env₂ req₂ blobs₂).calls) :
    md₁.TmpPath = FormatInt md₁.CreatedTs ++ "_" ++ md₁.FileName ∧
    md₂.TmpPath = FormatInt md₂.CreatedTs ++ "_" ++ md₂.FileName ∧
    (md₁.TmpPath = md₂.TmpPath → md₁.CreatedTs = md₂.CreatedTs ∧ md₁.FileName = md₂.FileName) ∧
    (∀ (t₁ t₂ : Int) (n₁ n₂ : String),
      server.tmpPath t₁ n₁ = server.tmpPath t₂ n₂ ↔ t₁ = t₂ ∧ n₁ = n₂) := by
  obtain ⟨f₁, L₁, e₁⟩ := HandlerUpload_metadata_row env₁ req₁ blobs₁ md₁ h₁
  obtain ⟨f₂, L₂, e₂⟩ := HandlerUpload_metadata_row env₂ req₂ blobs₂ md₂ h₂
  have p₁ : md₁.TmpPath = server.tmpPath md₁.CreatedTs md₁.FileName := by
    rw [e₁]; rfl
  have p₂ : md₂.TmpPath = server.tmpPath md₂.CreatedTs md₂.FileName := by
    rw [e₂]; rfl
  refine ⟨p₁, p₂, ?_, tmpPath_eq_iff⟩
  intro heq
  rw [p₁, p₂] at heq
  exact (tmpPath_eq_iff _ _ _ _).mp heq

theorem HandlerUpload_tmpPath_injective_witness :
    Call.AddFileMetadataRecord
        ⟨0, "report.pdf", "1700000000000_report.pdf", 1700000000000, 1700000060000⟩
      ∈ (server.HandlerUpload okEnv (reportUpload "60") []).calls ∧
    Call.AddFileMetadataRecord
        ⟨0, "report.pdf", "1700000000001_report.pdf", 1700000000001, 1700000060001⟩
      ∈ (server.HandlerUpload laterEnv (reportUpload "60") []).calls ∧
    "1700000000000_report.pdf" ≠ "1700000000001_report.pdf" ∧
    ("1700000000000_report.pdf" = "1700000000001_report.pdf" →
      (1700000000000 : Int) = 1700000000001 ∧ "report.pdf" = "report.pdf") :=
  ⟨by decide, by decide, by decide,
    (HandlerUpload_tmpPath_injective okEnv laterEnv (reportUpload "60") (reportUpload "60")
      [] []
      ⟨0, "report.pdf", "1700000000000_report.pdf", 1700000000000, 1700000060000⟩
      ⟨0, "report.pdf", "1700000000001_report.pdf", 1700000000001, 1700000060001⟩
      (by decide) (by decide)).2.2.1⟩

/-! ## Clipboard records -/

/-- C7: every record that `HandlerPush` or `HandlerUpload` passes to
`AddClipboardRecord` has non-empty content. A push whose bound content is
empty is answered with 400 "content is empty" and makes no call; the content
built by an upload is `name ++ "@" ++ decimal(id)`. -/
theorem AddClipboardRecord_content_ne_empty (env : Env) (blobs : List String) :
    (∀ (req : PushRequest) (c : Clipboard),
      Call.AddClipboardRecord c ∈ (server.HandlerPush env req blobs).calls → c.Content ≠ "") ∧
    (∀ (req : PushRequest) (bound : Clipboard),
      req.BindJSON env.NewClipoardWithDefault = .ok bound → bound.Content = "" →
      server.HandlerPush env req blobs = ⟨.JSON 400 "content is empty" none, [], blobs⟩) ∧
    (∀ (req : UploadRequest) (c : Clipboard),
      Call.AddClipboardRecord c ∈ (server.HandlerUpload env req blobs).calls →
      (∃ (name : String) (id : Int), c.Content = name ++ "@" ++ FormatInt id) ∧
      c.Content ≠ "") := by
  refine ⟨?_, ?_, ?_⟩
  · intro req c hc
    cases hb : req.BindJSON env.NewClipoardWithDefault with
    | error e => simp [server.HandlerPush, hb] at hc
    | ok bound =>
      by_cases he : bound.Content = ""
      · simp [server.HandlerPush, hb, he] at hc
      · cases ha : env.AddClipboardRecord bound with
        | some e =>
          simp [server.HandlerPush, hb, he, ha] at hc
          rw [hc]; exact he
        | none =>
          simp [server.HandlerPush, hb, he, ha] at hc
          rw [hc]; exact he
  · intro req bound hb he
    simp [server.HandlerPush, hb, he]
  · intro req c hc
    rcases HandlerUpload_calls env req blobs with h | ⟨file, L, hostname, h | h | ⟨k, h⟩⟩
    · rw [h] at hc; simp at hc
    · rw [h] at hc; simp at hc
    · rw [h] at hc; simp at hc
    · rw [h] at hc
      simp at hc
      subst hc
      exact ⟨⟨(server.uploadMetadata env file L).FileName, k, rfl⟩,
        FormatInt_reference_ne_empty _ _⟩

theorem AddClipboardRecord_content_ne_empty_witness :
    Call.AddClipboardRecord ⟨0, "report.pdf@7", "binary", "laptop", 1700000000000⟩
      ∈ (server.HandlerUpload okEnv (reportUpload "60") []).calls ∧
    ((∃ (name : String) (id : Int), "report.pdf@7" = name ++ "@" ++ FormatInt id) ∧
      "report.pdf@7" ≠ "") ∧
    server.HandlerPush okEnv ⟨fun d => .ok { d with Content := "" }⟩ []
      = ⟨.JSON 400 "content is empty" none, [], []⟩ :=
  ⟨by decide,
    (AddClipboardRecord_content_ne_empty okEnv []).2.2 (reportUpload "60")
      ⟨0, "report.pdf@7", "binary", "laptop", 1700000000000⟩ (by decide),
    (AddClipboardRecord_content_ne_empty okEnv []).2.1
      ⟨fun d => .ok { d with Content := "" }⟩ ⟨0, "", "text", "unknown", 1700000000000⟩
      rfl rfl⟩

/-! ## Downloads -/

theorem HandlerDownload_slash (env : Env) (name : String) (blobs : List String) :
    server.HandlerDownload env ("/" ++ name) blobs
      = some (server.downloadNamed env name blobs) := by
  simp [server.HandlerDownload, String.data_append]

theorem containsAt_ne_empty (name : String) (h : containsAt name = true) : name ≠ "" := by
  intro he
  subst he
  simp [containsAt] at h

/-- C6: a requested name that contains "@" and whose id decodes to `0` makes
no store lookup and is answered with status 500 and the message
"invalid format of file id ". -/
theorem HandlerDownload_bad_reference (env : Env) (name : String) (blobs : List String)
    (hat : containsAt name = true) (hid : env.ExtractFileId name "@" = 0) :
    server.HandlerDownload env ("/" ++ name) blobs
      = some ⟨.JSON 500 "invalid format of file id " none, [], blobs⟩ := by
  rw [HandlerDownload_slash]
  simp [server.downloadNamed, containsAt_ne_empty name hat, hat, hid]

theorem HandlerDownload_bad_reference_witness :
    containsAt "report@abc" = true ∧ okEnv.ExtractFileId "report@abc" "@" = 0 ∧
    server.HandlerDownload okEnv ("/" ++ "report@abc") []
      = some ⟨.JSON 500 "invalid format of file id " none, [], []⟩ ∧
    server.HandlerDownload lookupFaultEnv "/report@12" []
      = some ⟨.JSON 500 "get file metadata record error: database is locked" none,
          [.GetFileMetadataRecordByIdOrName ⟨12, "", "", 1700000000000, 0⟩], []⟩ ∧
    server.HandlerUpload okEnv (reportUpload "-1") []
      = ⟨.JSON 400 "invalid lifetime" none, [], []⟩ :=
  ⟨by decide, by decide,
    HandlerDownload_bad_reference okEnv "report@abc" [] (by decide) (by decide),
    by decide, by decide⟩

/-- The calls of a download: the latest-record lookup for an empty name, one
by-name lookup for a non-empty name without "@", and for a name with "@"
either nothing (id `0`) or one lookup by the extracted id. -/
theorem downloadNamed_calls (env : Env) (name : String) (blobs : List String) :
    (server.downloadNamed env name blobs).calls =
      if name = "" then [.GetFileMetadataLatestRecord]
      else if containsAt name = true then
        if env.ExtractFileId name "@" = 0 then []
        else [.GetFileMetadataRecordByIdOrName
          { env.NewFileMetadataWithDefault with Id := env.ExtractFileId name "@" }]
      else [.GetFileMetadataRecordByIdOrName
        { env.NewFileMetadataWithDefault with FileName := name }] := by
  by_cases he : name = ""
  · cases hl : env.GetFileMetadataLatestRecord env.NewFileMetadataWithDefault with
    | error e => cases e <;> simp [server.downloadNamed, he, hl]
    | ok found => simp [server.downloadNamed, he, hl]
  · by_cases hat : containsAt name = true
    · by_cases h0 : env.ExtractFileId name "@" = 0
      · simp [server.downloadNamed, he, hat, h0]
      · cases hl : env.GetFileMetadataRecordByIdOrName
            { env.NewFileMetadataWithDefault with Id := env.ExtractFileId name "@" } with
        | error e => cases e <;> simp [server.downloadNamed, he, hat, h0, hl]
        | ok found => simp [server.downloadNamed, he, hat, h0, hl]
    · cases hl : env.GetFileMetadataRecordByIdOrName
          { env.NewFileMetadataWithDefault with FileName := name } with
      | error e => cases e <;> simp [server.downloadNamed, he, hat, hl]
      | ok found => simp [server.downloadNamed, he, hat, hl]

/-- C9: with a default metadata value whose id is `0` and whose file name is
empty, an empty requested name makes the latest-record lookup only; a
non-empty name without "@" makes one by-id-or-name lookup whose probe has id
`0` and the requested file name; a name with "@" makes by-id-or-name lookups
with a non-zero id (and the default, empty file name) only. No
by-id-or-name lookup has both id `0` and an empty
file name. -/
theorem HandlerDownload_lookups (env : Env) (name : String) (blobs : List String)
    (hid : env.NewFileMetadataWithDefault.Id = 0)
    (hfn : env.NewFileMetadataWithDefault.FileName = "") :
    ∃ o : Outcome, server.HandlerDownload env ("/" ++ name) blobs = some o ∧
      (name = "" → o.calls = [.GetFileMetadataLatestRecord]) ∧
      (name ≠ "" → containsAt name = false →
        ∃ d : FileMetadata, o.calls = [.GetFileMetadataRecordByIdOrName d] ∧
          d.Id = 0 ∧ d.FileName = name) ∧
      (containsAt name = true →
        ∀ c ∈ o.calls, ∃ d : FileMetadata,
          c = .GetFileMetadataRecordByIdOrName d ∧ d.Id ≠ 0 ∧ d.FileName = "") ∧
      (∀ d : FileMetadata, Call.GetFileMetadataRecordByIdOrName d ∈ o.calls →
        ¬ (d.Id = 0 ∧ d.FileName = "")) := by
  refine ⟨server.downloadNamed env name blobs, HandlerDownload_slash env name blobs, ?_, ?_, ?_, ?_⟩
  · intro he
    rw [downloadNamed_calls, if_pos he]
  · intro hne hat
    refine ⟨{ env.NewFileMetadataWithDefault with FileName := name }, ?_, hid, rfl⟩
    rw [downloadNamed_calls, if_neg hne, if_neg (by simp [hat])]
  · intro hat c hc
    rw [downloadNamed_calls, if_neg (containsAt_ne_empty name hat), if_pos hat] at hc
    by_cases h0 : env.ExtractFileId name "@" = 0
    · rw [if_pos h0] at hc; simp at hc
    · rw [if_neg h0] at hc
      exact ⟨{ env.NewFileMetadataWithDefault with Id := env.ExtractFileId name "@" },
        by simpa using hc, h0, hfn⟩
  · intro d hd
    rw [downloadNamed_calls] at hd
    by_cases he : name = ""
    · rw [if_pos he] at hd; simp at hd
    · rw [if_neg he] at hd
      by_cases hat : containsAt name = true
      · rw [if_pos hat] at hd
        by_cases h0 : env.ExtractFileId name "@" = 0
        · rw [if_pos h0] at hd; simp at hd
        · rw [if_neg h0] at hd
          simp at hd
          subst hd
          exact fun h => h0 h.1
      · rw [if_neg hat] at hd
        simp at hd
        subst hd
        exact fun h => he h.2

theorem HandlerDownload_lookups_witness :
    okEnv.NewFileMetadataWithDefault.Id = 0 ∧ okEnv.NewFileMetadataWithDefault.FileName = "" ∧
    server.HandlerDownload okEnv "/notes.txt" []
      = some ⟨.JSON 404 "file not found" none,
          [.GetFileMetadataRecordByIdOrName ⟨0, "notes.txt", "", 1700000000000, 0⟩], []⟩ ∧
    server.HandlerDownload okEnv "/" []
      = some ⟨.JSON 404 "file not found" none, [.GetFileMetadataLatestRecord], []⟩ ∧
    ∃ o : Outcome, server.HandlerDownload okEnv ("/" ++ "notes.txt") [] = some o ∧
      ("notes.txt" = "" → o.calls = [.GetFileMetadataLatestRecord]) ∧
      ("notes.txt" ≠ "" → containsAt "notes.txt" = false →
        ∃ d : FileMetadata, o.calls = [.GetFileMetadataRecordByIdOrName d] ∧
          d.Id = 0 ∧ d.FileName = "notes.txt") ∧
      (containsAt "notes.txt" = true →
        ∀ c ∈ o.calls, ∃ d : FileMetadata,
          c = .GetFileMetadataRecordByIdOrName d ∧ d.Id ≠ 0 ∧ d.FileName = "") ∧
      (∀ d : FileMetadata, Call.GetFileMetadataRecordByIdOrName d ∈ o.calls →
        ¬ (d.Id = 0 ∧ d.FileName = "")) :=
  ⟨rfl, rfl, by decide, by decide, HandlerDownload_lookups okEnv "notes.txt" [] rfl rfl⟩
